import Mathlib

/-!
Verification of the BioPubDatabase SDF index core against its
natural-language specification.

The development shallowly embeds the Python sources under
`src/nih/pubchem/index/`:

* `record_locator.py` — the 32-byte locator codec (`RecordLocator.to_bytes`
  / `RecordLocator.from_bytes`), modelled byte-for-byte with little-endian
  fields.  `struct.pack` range failures become `Option`.
* `sdf_index_builder.py` — the streaming record parser inside
  `_index_one_file`, the posting-list pager `_pl_append`, and the
  per-record table writes.
* `sdf_index.py` — the lookup engine (`get_compound_by_cid`,
  `iter_conformers_by_cid`, `batch_get_compounds_by_cid`, `read_segment`).

Bytes are modelled as `Nat` (values < 256 where produced by the code);
byte strings as `List Nat`.  UUIDv5 ALIDs are modelled by their
generating tuple `(kind, relpath, rec_no, primary_id)`, i.e. the hash is
assumed collision-free, which is the determinism the code relies on.
-/

namespace BioPub

/-- Little-endian encoding of `v` into `w` bytes (the bytes produced by
`struct.pack` for an in-range value). -/
def toLE : Nat → Nat → List Nat
  | 0, _ => []
  | w + 1, v => (v % 256) :: toLE w (v / 256)

/-- Little-endian decoding of a byte list, as `int.from_bytes(..., "little")`
and `struct.unpack` do. -/
def fromLE : List Nat → Nat
  | [] => 0
  | b :: bs => b + 256 * fromLE bs

theorem toLE_length (w v : Nat) : (toLE w v).length = w := by
  induction w generalizing v with
  | zero => rfl
  | succ w ih => simp [toLE, ih]

theorem fromLE_toLE (w v : Nat) : fromLE (toLE w v) = v % 256 ^ w := by
  induction w generalizing v with
  | zero => simp [toLE, fromLE, Nat.mod_one]
  | succ w ih =>
      rw [toLE, fromLE, ih]
      rw [pow_succ, mul_comm (256 ^ w) 256, Nat.mod_mul]

theorem fromLE_toLE_of_lt {w v : Nat} (h : v < 256 ^ w) :
    fromLE (toLE w v) = v := by
  rw [fromLE_toLE, Nat.mod_eq_of_lt h]

/-- `RecordLocator` from `record_locator.py`: pointer to a record segment
in a specific file.  The decoded `cid` may be any `i64` value other than
`-1` (which decodes to `none`), hence `Option Int`. -/
structure RecordLocator where
  file_id : Nat
  start : Nat
  stop : Nat
  is_conformer : Bool
  cid : Option Int
deriving DecidableEq, Repr

namespace RecordLocator

/-- The `i64` written into the cid slot: `-1 if self.cid is None else int(self.cid)`. -/
def cidI64 (c : Option Int) : Int :=
  match c with
  | none => -1
  | some v => v

/-- `RecordLocator.to_bytes`: `struct.Struct("<IQQHqH").pack(file_id, start,
end, flags, cid_i64, 0)`.  `struct.pack` raises for an out-of-range field,
modelled by `none`; otherwise the 32 little-endian bytes are produced.
The source enforces no other constraint. -/
def to_bytes (L : RecordLocator) : Option (List Nat) :=
  let c := cidI64 L.cid
  let flags : Nat := if L.is_conformer then 1 else 0
  if L.file_id < 2 ^ 32 ∧ L.start < 2 ^ 64 ∧ L.stop < 2 ^ 64 ∧
      -(2 ^ 63) ≤ c ∧ c < 2 ^ 63 then
    some (toLE 4 L.file_id ++ (toLE 8 L.start ++ (toLE 8 L.stop ++
      (toLE 2 flags ++ (toLE 8 (c.emod (2 ^ 64)).toNat ++ toLE 2 0)))))
  else
    none

/-- Reading an `i64` slot back from its unsigned little-endian value. -/
def i64ofU (u : Nat) : Int :=
  if u < 2 ^ 63 then (u : Int) else (u : Int) - 2 ^ 64

/-- `RecordLocator.from_bytes`: `struct.unpack` of the 32-byte buffer
(`struct.error`, i.e. `none`, iff the length is not 32), then
`cid = None if cid_i64 == -1 else cid_i64` and
`is_conformer = bool(flags & 1)`.  No other validation happens. -/
def from_bytes (b : List Nat) : Option RecordLocator :=
  if b.length = 32 then
    some { file_id := fromLE (b.take 4),
           start := fromLE ((b.drop 4).take 8),
           stop := fromLE ((b.drop 12).take 8),
           is_conformer := fromLE ((b.drop 20).take 2) % 2 = 1,
           cid := if i64ofU (fromLE ((b.drop 22).take 8)) = -1 then none
                  else some (i64ofU (fromLE ((b.drop 22).take 8))) }
  else
    none

theorem to_bytes_some (L : RecordLocator)
    (h1 : L.file_id < 2 ^ 32) (h2 : L.start < 2 ^ 64) (h3 : L.stop < 2 ^ 64)
    (h4 : -(2 ^ 63) ≤ cidI64 L.cid) (h5 : cidI64 L.cid < 2 ^ 63) :
    L.to_bytes =
      some (toLE 4 L.file_id ++ (toLE 8 L.start ++ (toLE 8 L.stop ++
        (toLE 2 (if L.is_conformer then 1 else 0) ++
          (toLE 8 ((cidI64 L.cid).emod (2 ^ 64)).toNat ++ toLE 2 0))))) := by
  unfold to_bytes
  rw [if_pos ⟨h1, h2, h3, h4, h5⟩]

/-- Evaluating `from_bytes` on the concatenation of the six field slices. -/
theorem from_bytes_parts (A B C D E F : List Nat)
    (hA : A.length = 4) (hB : B.length = 8) (hC : C.length = 8)
    (hD : D.length = 2) (hE : E.length = 8) (hF : F.length = 2) :
    from_bytes (A ++ (B ++ (C ++ (D ++ (E ++ F))))) =
      some { file_id := fromLE A, start := fromLE B, stop := fromLE C,
             is_conformer := fromLE D % 2 = 1,
             cid := if i64ofU (fromLE E) = -1 then none
                    else some (i64ofU (fromLE E)) } := by
  have hlen : (A ++ (B ++ (C ++ (D ++ (E ++ F))))).length = 32 := by
    simp [hA, hB, hC, hD, hE, hF]
  have t4 : (A ++ (B ++ (C ++ (D ++ (E ++ F))))).take 4 = A := List.take_left' hA
  have d4 : (A ++ (B ++ (C ++ (D ++ (E ++ F))))).drop 4 =
      B ++ (C ++ (D ++ (E ++ F))) := List.drop_left' hA
  have d12 : (A ++ (B ++ (C ++ (D ++ (E ++ F))))).drop 12 =
      C ++ (D ++ (E ++ F)) := by
    rw [← List.append_assoc]
    exact List.drop_left' (by simp [hA, hB])
  have d20 : (A ++ (B ++ (C ++ (D ++ (E ++ F))))).drop 20 = D ++ (E ++ F) := by
    rw [← List.append_assoc, ← List.append_assoc]
    exact List.drop_left' (by simp [hA, hB, hC])
  have d22 : (A ++ (B ++ (C ++ (D ++ (E ++ F))))).drop 22 = E ++ F := by
    rw [← List.append_assoc, ← List.append_assoc, ← List.append_assoc]
    exact List.drop_left' (by simp [hA, hB, hC, hD])
  unfold from_bytes
  rw [if_pos hlen, t4, d4, d12, d20, d22, List.take_left' hB,
    List.take_left' hC, List.take_left' hD, List.take_left' hE]

theorem from_bytes_to_bytes (L : RecordLocator)
    (h1 : L.file_id < 2 ^ 32) (h2 : L.start < 2 ^ 64) (h3 : L.stop < 2 ^ 64)
    (h4 : L.cid = none ∨ ∃ c, L.cid = some c ∧ 0 ≤ c ∧ c < 2 ^ 63) :
    ∃ bs, L.to_bytes = some bs ∧ from_bytes bs = some L := by
  have hc4 : -(2 ^ 63) ≤ cidI64 L.cid := by
    rcases h4 with h | ⟨c, hc, hc0, _⟩
    · rw [h]; decide
    · rw [hc]; simp only [cidI64]; omega
  have hc5 : cidI64 L.cid < 2 ^ 63 := by
    rcases h4 with h | ⟨c, hc, _, hc1⟩
    · rw [h]; decide
    · rw [hc]; simpa [cidI64] using hc1
  refine ⟨_, to_bytes_some L h1 h2 h3 hc4 hc5, ?_⟩
  rw [from_bytes_parts _ _ _ _ _ _ (toLE_length _ _) (toLE_length _ _)
    (toLE_length _ _) (toLE_length _ _) (toLE_length _ _) (toLE_length _ _)]
  have e256_4 : (256 : Nat) ^ 4 = 2 ^ 32 := by norm_num
  have e256_8 : (256 : Nat) ^ 8 = 2 ^ 64 := by norm_num
  have hfid : fromLE (toLE 4 L.file_id) = L.file_id :=
    fromLE_toLE_of_lt (by rw [e256_4]; exact h1)
  have hstart : fromLE (toLE 8 L.start) = L.start :=
    fromLE_toLE_of_lt (by rw [e256_8]; exact h2)
  have hstop : fromLE (toLE 8 L.stop) = L.stop :=
    fromLE_toLE_of_lt (by rw [e256_8]; exact h3)
  have hflags : fromLE (toLE 2 (if L.is_conformer then 1 else 0)) % 2 = 1 ↔
      L.is_conformer = true := by
    cases L.is_conformer <;> simp [fromLE_toLE_of_lt, fromLE, toLE]
  have hcid : (if i64ofU (fromLE (toLE 8 ((cidI64 L.cid).emod (2 ^ 64)).toNat)) = -1
      then none else some (i64ofU (fromLE (toLE 8 ((cidI64 L.cid).emod (2 ^ 64)).toNat))))
      = L.cid := by
    rcases h4 with h | ⟨c, hc, hc0, hc1⟩
    · rw [h]
      have hm : ((-1 : Int).emod (2 ^ 64)).toNat = 2 ^ 64 - 1 := by decide
      simp only [cidI64, hm]
      rw [fromLE_toLE_of_lt (by rw [e256_8]; omega)]
      have : i64ofU (2 ^ 64 - 1) = -1 := by decide
      rw [this]
      simp
    · rw [hc]
      have hm : (cidI64 (some c)).emod (2 ^ 64) = c := by
        simp only [cidI64]
        exact Int.emod_eq_of_lt hc0 (by omega)
      rw [hm]
      have htn : (c.toNat : Int) = c := Int.toNat_of_nonneg hc0
      have htlt : c.toNat < 2 ^ 64 := by omega
      rw [fromLE_toLE_of_lt (by rw [e256_8]; exact htlt)]
      have hiu : i64ofU c.toNat = c := by
        unfold i64ofU
        rw [if_pos (by omega)]
        exact htn
      rw [hiu, if_neg (by omega)]
  cases hL : L.is_conformer <;>
    · obtain ⟨fid, st, sp, ic, cid⟩ := L
      simp_all [hfid, hstart, hstop, hcid]
      try exact hcid

/-- `from_bytes` on any 32-byte buffer returns a locator whose `cid` is
`none` exactly when the decoded `i64` slot is `-1`, and otherwise carries
the decoded slot value unchanged (no failure path for negative values). -/
theorem from_bytes_cid_behaviour (b : List Nat) (h : b.length = 32) :
    ∃ L, from_bytes b = some L ∧
      ((i64ofU (fromLE ((b.drop 22).take 8)) = -1 → L.cid = none) ∧
       (i64ofU (fromLE ((b.drop 22).take 8)) ≠ -1 →
         L.cid = some (i64ofU (fromLE ((b.drop 22).take 8))))) := by
  refine ⟨_, by unfold from_bytes; rw [if_pos h], ?_, ?_⟩ <;> intro hv <;> simp [hv]

end RecordLocator

end BioPub

namespace BioPub

open RecordLocator

/-- C1: for every locator whose `file_id` fits `u32`, whose `start` and
`stop` fit `u64`, and whose `cid` is absent or a non-negative integer below
`2^63`, `from_bytes (to_bytes L) = L`. -/
theorem C1_locator_roundtrip (L : RecordLocator)
    (h1 : L.file_id < 2 ^ 32) (h2 : L.start < 2 ^ 64) (h3 : L.stop < 2 ^ 64)
    (h4 : L.cid = none ∨ ∃ c, L.cid = some c ∧ 0 ≤ c ∧ c < 2 ^ 63) :
    ∃ bs, L.to_bytes = some bs ∧ RecordLocator.from_bytes bs = some L :=
  from_bytes_to_bytes L h1 h2 h3 h4

/-- Witness for C1 at the concrete locator `(1, 0, 5, conformer, cid 7)`. -/
theorem C1_locator_roundtrip_witness :
    ∃ bs, RecordLocator.to_bytes ⟨1, 0, 5, true, some 7⟩ = some bs ∧
      RecordLocator.from_bytes bs = some ⟨1, 0, 5, true, some 7⟩ :=
  C1_locator_roundtrip ⟨1, 0, 5, true, some 7⟩ (by norm_num) (by norm_num)
    (by norm_num) (Or.inr ⟨7, rfl, by norm_num, by norm_num⟩)

/-- C4 counterexample: the 32-byte buffer whose `cid` slot holds `-2`
decodes successfully to a locator with `cid = -2`; `from_bytes` has no
failure path for negative `cid` values other than treating `-1` as absent. -/
theorem C4_counterexample :
    RecordLocator.from_bytes
        [1, 0, 0, 0,  0, 0, 0, 0, 0, 0, 0, 0,  0, 0, 0, 0, 0, 0, 0, 0,
         0, 0,  254, 255, 255, 255, 255, 255, 255, 255,  0, 0] =
      some ⟨1, 0, 0, false, some (-2)⟩ := by decide

/-- C4 as amended: decoding any 32-byte buffer succeeds; a `cid` slot of
`-1` maps to absent and any other slot value (negative ones included) is
stored verbatim in the locator — no `CorruptLocator` failure exists. -/
theorem C4_decode_cid_amended (b : List Nat) (h : b.length = 32) :
    ∃ L, RecordLocator.from_bytes b = some L ∧
      ((i64ofU (fromLE ((b.drop 22).take 8)) = -1 → L.cid = none) ∧
       (i64ofU (fromLE ((b.drop 22).take 8)) ≠ -1 →
         L.cid = some (i64ofU (fromLE ((b.drop 22).take 8))))) :=
  from_bytes_cid_behaviour b h

/-- Witness for C4-amended at a concrete buffer with `cid` slot `-1`. -/
theorem C4_decode_cid_amended_witness :
    ∃ L, RecordLocator.from_bytes
        [1, 0, 0, 0,  0, 0, 0, 0, 0, 0, 0, 0,  0, 0, 0, 0, 0, 0, 0, 0,
         0, 0,  255, 255, 255, 255, 255, 255, 255, 255,  0, 0] = some L ∧
      ((i64ofU (fromLE (([1, 0, 0, 0,  0, 0, 0, 0, 0, 0, 0, 0,
          0, 0, 0, 0, 0, 0, 0, 0, 0, 0,  255, 255, 255, 255, 255, 255, 255,
          255,  0, 0].drop 22).take 8)) = -1 → L.cid = none) ∧
       (i64ofU (fromLE (([1, 0, 0, 0,  0, 0, 0, 0, 0, 0, 0, 0,
          0, 0, 0, 0, 0, 0, 0, 0, 0, 0,  255, 255, 255, 255, 255, 255, 255,
          255,  0, 0].drop 22).take 8)) ≠ -1 →
         L.cid = some (i64ofU (fromLE (([1, 0, 0, 0,  0, 0, 0, 0, 0, 0, 0, 0,
          0, 0, 0, 0, 0, 0, 0, 0, 0, 0,  255, 255, 255, 255, 255, 255, 255,
          255,  0, 0].drop 22).take 8))))) :=
  C4_decode_cid_amended _ (by decide)

/-- C5 counterexample: the locator with `file_id = 0` and `start = 5 > 3 =
end` — violating `file_id ≥ 1` and `start ≤ end` — still encodes to a
32-byte buffer; `to_bytes` enforces none of the spec's constraints. -/
theorem C5_counterexample :
    (RecordLocator.to_bytes ⟨0, 5, 3, false, none⟩).map List.length =
      some 32 := by decide

/-- C5 as amended: `to_bytes` checks only that each field fits its struct
slot (`file_id < 2^32`, `start, end < 2^64`, `cid` in `i64` range); under
those conditions it always produces 32 bytes, even for `file_id = 0`,
`start > end`, or `end > 2^63`. -/
theorem C5_to_bytes_amended (L : RecordLocator)
    (h1 : L.file_id < 2 ^ 32) (h2 : L.start < 2 ^ 64) (h3 : L.stop < 2 ^ 64)
    (h4 : -(2 ^ 63) ≤ cidI64 L.cid) (h5 : cidI64 L.cid < 2 ^ 63) :
    ∃ bs, L.to_bytes = some bs ∧ bs.length = 32 :=
  ⟨_, to_bytes_some L h1 h2 h3 h4 h5, by simp [toLE_length]⟩

/-- Witness for C5-amended at the constraint-violating locator
`(0, 5, 3, compound, no cid)`. -/
theorem C5_to_bytes_amended_witness :
    ∃ bs, RecordLocator.to_bytes ⟨0, 5, 3, false, none⟩ = some bs ∧
      bs.length = 32 :=
  C5_to_bytes_amended ⟨0, 5, 3, false, none⟩ (by norm_num) (by norm_num)
    (by norm_num) (by decide) (by decide)

/-! ## Index data model (`sdf_index.py`)

LMDB sub-tables are modelled as functional maps; `txn.get` returning no
entry is `none`, `txn.put` is a pointwise update.  An ALID is modelled by
its `uuid5` generating tuple `(kind, relpath, rec_no, primary_id)` — the
hash is injective on the tuples in this model.  A 17-byte record key
`prefix_byte || alid_bytes` is the pair of its prefix (`true` = `b"F"`,
`false` = `b"C"`) and its ALID. -/

/-- Record kind, the result of `_determine_kind`. -/
inductive SDFKind where
  | compound
  | conformer
deriving DecidableEq, Repr

/-- The `uuid5` generating tuple from `_make_alid`: `"{kind}|{relpath}|{rec_no}|{primary_id}"`.
`primary_id` is kept as the bytes of the primary-id string. -/
structure Alid where
  kind : SDFKind
  relpath : String
  rec_no : Nat
  primary_id : List Nat
deriving DecidableEq, Repr

/-- `IndexHit` from `sdf_index.py`: resolved record including ALID. -/
structure IndexHit where
  alid : Alid
  locator : RecordLocator
deriving DecidableEq, Repr

/-- Pointwise table update, the effect of `txn.put(k, v)`. -/
def tput {α β : Type} [DecidableEq α] (m : α → Option β) (k : α) (v : β) :
    α → Option β :=
  fun x => if x = k then some v else m x

/-- The LMDB environment contents relevant to the claims: one field per
sub-table of `SDFIndex`, plus the `file_id_counter` cell of `meta`.
`records` values are the raw 32-byte locator encodings.  The conformer
posting lists appear byte-exactly in `PLState` below; here `pl` records
the per-CID append order of conformer ALIDs, which is what the builder
invariants need. -/
structure Snapshot where
  file_id_counter : Nat
  files : Nat → Option String
  files_rev : String → Option Nat
  records : Bool × Alid → Option (List Nat)
  cid_to_compound : Nat → Option (Bool × Alid)
  confid_to_conf : List Nat → Option (Bool × Alid)
  pl : Nat → List Alid

namespace SDFIndex

/-- `SDFIndex.get_compound_by_cid`: two-table lookup.  A record value that
`RecordLocator.from_bytes` rejects would raise in Python; it is modelled
as `none` (unreachable on an index written through `to_bytes`). -/
def get_compound_by_cid (st : Snapshot) (cid : Nat) : Option IndexHit :=
  match st.cid_to_compound cid with
  | none => none
  | some rec_key =>
    match st.records rec_key with
    | none => none
    | some b =>
      match RecordLocator.from_bytes b with
      | none => none
      | some loc => some ⟨rec_key.2, loc⟩

/-- `_chunked` from `utils_module.py`: accumulate a buffer, flush whenever
`len(buf) >= chunk_size`, flush the non-empty remainder at the end. -/
def chunkedAux {α : Type} (chunk_size : Int) : List α → List α → List (List α)
  | [], buf => if buf.isEmpty then [] else [buf]
  | x :: xs, buf =>
    if chunk_size ≤ ((buf ++ [x]).length : Int) then
      (buf ++ [x]) :: chunkedAux chunk_size xs []
    else
      chunkedAux chunk_size xs (buf ++ [x])

/-- `_chunked(iterable, chunk_size)` materialised on lists. -/
def chunked {α : Type} (xs : List α) (chunk_size : Int) : List (List α) :=
  chunkedAux chunk_size xs []

/-- `SDFIndex.batch_get_compounds_by_cid`: stream `(cid, hit_or_none)` per
chunk, with the identical per-key lookup as `get_compound_by_cid`. -/
def batch_get_compounds_by_cid (st : Snapshot) (cids : List Nat)
    (chunk_size : Int) : List (Nat × Option IndexHit) :=
  ((chunked cids chunk_size).map (fun chunk =>
    chunk.map (fun cid =>
      match st.cid_to_compound cid with
      | none => (cid, none)
      | some rec_key =>
        match st.records rec_key with
        | none => (cid, none)
        | some b =>
          match RecordLocator.from_bytes b with
          | none => (cid, none)
          | some loc => (cid, some ⟨rec_key.2, loc⟩)))).flatten

theorem chunkedAux_flatten {α : Type} (chunk_size : Int) (xs buf : List α) :
    (chunkedAux chunk_size xs buf).flatten = buf ++ xs := by
  induction xs generalizing buf with
  | nil =>
      by_cases h : buf.isEmpty
      · rw [List.isEmpty_iff.mp h]
        simp [chunkedAux]
      · rw [chunkedAux, if_neg h]
        simp
  | cons x xs ih =>
      by_cases h : chunk_size ≤ ((buf ++ [x]).length : Int)
      · rw [chunkedAux, if_pos h]
        simp [ih]
      · rw [chunkedAux, if_neg h, ih]
        simp

theorem chunked_flatten {α : Type} (xs : List α) (chunk_size : Int) :
    (chunked xs chunk_size).flatten = xs := by
  simpa using chunkedAux_flatten chunk_size xs []

end SDFIndex

/-- C10: for every CID list and every chunk size,
`batch_get_compounds_by_cid` yields one pair per input CID, in input
order, and each result is exactly `get_compound_by_cid` of that CID on
the same snapshot. -/
theorem C10_batch_matches_point_lookup (st : Snapshot) (cids : List Nat)
    (chunk_size : Int) :
    SDFIndex.batch_get_compounds_by_cid st cids chunk_size =
      cids.map (fun cid => (cid, SDFIndex.get_compound_by_cid st cid)) := by
  unfold SDFIndex.batch_get_compounds_by_cid
  rw [← List.map_flatten, SDFIndex.chunked_flatten]
  refine List.map_congr_left (fun cid _ => ?_)
  unfold SDFIndex.get_compound_by_cid
  cases h1 : st.cid_to_compound cid with
  | none => simp
  | some rk =>
    cases h2 : st.records rk with
    | none => simp [h2]
    | some b =>
      cases h3 : RecordLocator.from_bytes b with
      | none => simp [h2, h3]
      | some loc => simp [h2, h3]

/-! ## Segment reads (`SDFIndex.read_segment`) -/

namespace SDFIndex

/-- `SDFIndex.resolve_file_path`: `files` table lookup. -/
def resolve_file_path (st : Snapshot) (file_id : Nat) : Option String :=
  st.files file_id

/-- The failure modes of `read_segment` in the source: `KeyError` when
`file_id` has no `files` entry, and the `OSError` from `fp.open` when the
file itself is missing. -/
inductive ReadErr where
  | keyError
  | fileNotFound
deriving DecidableEq, Repr

/-- `f.seek(start)` followed by `f.read(end - start)` on a regular file
of the given contents: seeking past EOF is permitted, `read(n)` returns
at most `n` bytes (fewer when the file ends early) and a negative `n`
(Python semantics when `end < start`) reads to EOF. -/
def pyReadAt (content : List Nat) (start stop : Nat) : List Nat :=
  if (stop : Int) - (start : Int) < 0 then content.drop start
  else (content.drop start).take (stop - start)

/-- `SDFIndex.read_segment(root_dir, locator)`: resolve `file_id` to a
relative path, open the file (the filesystem is the map `fs` from
relative path to contents, with `root_dir` folded into it), seek and
read.  No length or terminator validation is performed on the result. -/
def read_segment (st : Snapshot) (fs : String → Option (List Nat))
    (loc : RecordLocator) : Except ReadErr (List Nat) :=
  match resolve_file_path st loc.file_id with
  | none => .error .keyError
  | some rel =>
    match fs rel with
    | none => .error .fileNotFound
    | some content => .ok (pyReadAt content loc.start loc.stop)

end SDFIndex

/-- A one-file snapshot and filesystem where `a.sdf`, file 1, holds four
bytes. -/
def shortFileSnap : Snapshot :=
  { file_id_counter := 1,
    files := fun n => if n = 1 then some "a.sdf" else none,
    files_rev := fun s => if s = "a.sdf" then some 1 else none,
    records := fun _ => none,
    cid_to_compound := fun _ => none,
    confid_to_conf := fun _ => none,
    pl := fun _ => [] }

/-- C7 counterexample: on a four-byte file, the locator `(1, 0, 10)` makes
`read_segment` return the four available bytes — not `end - start = 10`
bytes and not a `FileIO` failure. -/
theorem C7_counterexample :
    SDFIndex.read_segment shortFileSnap
        (fun s => if s = "a.sdf" then some [9, 9, 9, 9] else none)
        ⟨1, 0, 10, false, none⟩ = .ok [9, 9, 9, 9] := rfl

/-- C7 as amended: `read_segment` resolves `file_id` (error if absent from
the `files` table), errors when the file is missing, and otherwise returns
the bytes `seek(start); read(end - start)` yields; that is exactly
`end - start` bytes when `start ≤ end ≤ file size`, and the available
suffix — with no error — when the file is shorter than `end`. -/
theorem C7_read_segment_amended (st : Snapshot)
    (fs : String → Option (List Nat)) (loc : RecordLocator) :
    (st.files loc.file_id = none →
      SDFIndex.read_segment st fs loc = .error .keyError) ∧
    (∀ rel, st.files loc.file_id = some rel → fs rel = none →
      SDFIndex.read_segment st fs loc = .error .fileNotFound) ∧
    (∀ rel content, st.files loc.file_id = some rel → fs rel = some content →
      SDFIndex.read_segment st fs loc =
        .ok (SDFIndex.pyReadAt content loc.start loc.stop) ∧
      (loc.start ≤ loc.stop → loc.stop ≤ content.length →
        (SDFIndex.pyReadAt content loc.start loc.stop).length =
          loc.stop - loc.start)) := by
  refine ⟨?_, ?_, ?_⟩
  · intro h
    unfold SDFIndex.read_segment SDFIndex.resolve_file_path
    rw [h]
  · intro rel h1 h2
    unfold SDFIndex.read_segment SDFIndex.resolve_file_path
    rw [h1]
    simp only [h2]
  · intro rel content h1 h2
    constructor
    · unfold SDFIndex.read_segment SDFIndex.resolve_file_path
      rw [h1]
      simp only [h2]
    · intro hse hsl
      unfold SDFIndex.pyReadAt
      rw [if_neg (by omega)]
      simp only [List.length_take, List.length_drop]
      omega

/-- Witness for C7-amended: a file long enough for the locator, where the
read returns exactly `end - start` bytes. -/
theorem C7_read_segment_amended_witness :
    SDFIndex.read_segment shortFileSnap
        (fun s => if s = "a.sdf" then some [7, 8, 9, 10] else none)
        ⟨1, 1, 3, false, none⟩ =
      .ok (SDFIndex.pyReadAt [7, 8, 9, 10] 1 3) ∧
    (SDFIndex.pyReadAt [7, 8, 9, 10] 1 3).length = 3 - 1 := by
  have h := (C7_read_segment_amended shortFileSnap
    (fun s => if s = "a.sdf" then some [7, 8, 9, 10] else none)
    ⟨1, 1, 3, false, none⟩).2.2 "a.sdf" [7, 8, 9, 10] (by decide) (by decide)
  exact ⟨h.1, h.2 (by decide) (by decide)⟩

/-! ## Posting lists (`_pl_append`), byte-exact

`_pl_append(txn, cid, uuid16)` touches only the two LMDB keys derived
from its `cid` (`cid` in the header table, `cid|page_no` in the page
table), so one CID's posting list is an independent state: the header
page count (`0` when the header key is absent, since the source computes
`int.from_bytes(h) if h else 0`) plus the page blobs (an absent page is
the empty blob, since the source computes `txn.get(pk) or b""`). -/

def PL_PAGE_SIZE : Nat := 4096

/-- Per-CID posting-list storage. -/
structure PLState where
  page_count : Nat
  pages : Nat → List Nat

/-- The state before any append: no header, no pages. -/
def plEmpty : PLState := ⟨0, fun _ => []⟩

/-- `SDFIndexBuilder._pl_append` for one CID: create page `0` on first
append, then append to the last page while it holds fewer than
`PL_PAGE_SIZE` 16-byte entries, else open a new page and bump the
header. -/
def pl_append (st : PLState) (uuid16 : List Nat) : PLState :=
  if st.page_count = 0 then
    { page_count := 1,
      pages := fun p => if p = 0 then uuid16 else st.pages p }
  else
    if (st.pages (st.page_count - 1)).length / 16 < PL_PAGE_SIZE then
      { st with
        pages := fun p =>
          if p = st.page_count - 1 then
            st.pages (st.page_count - 1) ++ uuid16
          else st.pages p }
    else
      { page_count := st.page_count + 1,
        pages := fun p => if p = st.page_count then uuid16 else st.pages p }

/-- Posting-list state after appending each element of `us` in order. -/
def buildPL (us : List (List Nat)) : PLState := us.foldl pl_append plEmpty

/-- The entries destined for page `p`: the `p`-th 4096-entry chunk of the
append sequence. -/
def plChunk (us : List (List Nat)) (p : Nat) : List (List Nat) :=
  (us.drop (PL_PAGE_SIZE * p)).take PL_PAGE_SIZE

/-- Paging invariant maintained by `_pl_append`: the header equals
`ceil(N / 4096)` and every page blob is the concatenation of its chunk
of the append sequence. -/
def PLInv (us : List (List Nat)) (st : PLState) : Prop :=
  st.page_count = (us.length + (PL_PAGE_SIZE - 1)) / PL_PAGE_SIZE ∧
  ∀ p, st.pages p = (plChunk us p).flatten

theorem flatten_length_16 (l : List (List Nat))
    (h : ∀ u ∈ l, u.length = 16) : l.flatten.length = 16 * l.length := by
  induction l with
  | nil => simp
  | cons u rest ih =>
      simp only [List.flatten_cons, List.length_append, List.length_cons]
      rw [h u (by simp), ih (fun v hv => h v (by simp [hv]))]
      ring

theorem plChunk_all16 (us : List (List Nat)) (h : ∀ u ∈ us, u.length = 16)
    (p : Nat) : ∀ u ∈ plChunk us p, u.length = 16 := by
  intro u hu
  exact h u (List.mem_of_mem_drop (List.mem_of_mem_take hu))

theorem plChunk_length (us : List (List Nat)) (p : Nat) :
    (plChunk us p).length = min PL_PAGE_SIZE (us.length - PL_PAGE_SIZE * p) := by
  simp [plChunk]

theorem plChunk_nil_of_le (us : List (List Nat)) (p : Nat)
    (h : us.length ≤ PL_PAGE_SIZE * p) : plChunk us p = [] := by
  unfold plChunk
  rw [List.drop_eq_nil_of_le h]
  rfl

theorem plChunk_append_lt (us : List (List Nat)) (u : List Nat) (p : Nat)
    (h : PL_PAGE_SIZE * p + PL_PAGE_SIZE ≤ us.length) :
    plChunk (us ++ [u]) p = plChunk us p := by
  unfold plChunk
  rw [List.drop_append_eq_append_drop, List.take_append_eq_append_take]
  have h1 : us.length - (PL_PAGE_SIZE * p + PL_PAGE_SIZE) + PL_PAGE_SIZE =
      us.length - PL_PAGE_SIZE * p := by omega
  have h2 : PL_PAGE_SIZE - (us.drop (PL_PAGE_SIZE * p)).length = 0 := by
    simp only [List.length_drop]
    omega
  rw [h2]
  have h3 : PL_PAGE_SIZE * p - us.length = 0 := by omega
  rw [h3]
  simp

theorem buildPL_inv (us : List (List Nat)) (h16 : ∀ u ∈ us, u.length = 16) :
    PLInv us (buildPL us) := by
  induction us using List.reverseRecOn with
  | nil =>
      refine ⟨by decide, fun p => ?_⟩
      simp [plEmpty, buildPL, plChunk]
  | append_singleton us u ih =>
      have h16u : ∀ v ∈ us, v.length = 16 := fun v hv => h16 v (by simp [hv])
      have hu16 : u.length = 16 := h16 u (by simp)
      obtain ⟨hpc, hpages⟩ := ih h16u
      have hstep : buildPL (us ++ [u]) = pl_append (buildPL us) u := by
        unfold buildPL
        rw [List.foldl_append]
        rfl
      rw [hstep]
      by_cases h0 : (buildPL us).page_count = 0
      · have hN0 : us.length = 0 := by
          rw [h0] at hpc
          simp only [PL_PAGE_SIZE] at hpc
          omega
        have husnil : us = [] := List.length_eq_zero.mp hN0
        subst husnil
        refine ⟨?_, fun p => ?_⟩
        · unfold pl_append
          rw [if_pos h0]
          simp [PL_PAGE_SIZE]
        · unfold pl_append
          rw [if_pos h0]
          by_cases hp : p = 0
          · subst hp
            simp [plChunk, PL_PAGE_SIZE]
          · simp only [hp, if_false]
            rw [hpages p, plChunk_nil_of_le _ _ (by simp [PL_PAGE_SIZE]),
              plChunk_nil_of_le _ _
                (by simp only [List.length_append, List.length_nil,
                      List.length_cons, PL_PAGE_SIZE]; omega)]
      · -- at least one page exists
        set pc := (buildPL us).page_count with hpcdef
        set N := us.length with hNdef
        set k := N - PL_PAGE_SIZE * (pc - 1) with hkdef
        have hpc' : pc = (N + 4095) / 4096 := by
          simpa only [PL_PAGE_SIZE] using hpc
        have hk' : k = N - 4096 * (pc - 1) := by
          simpa only [PL_PAGE_SIZE] using hkdef
        have hN1 : 1 ≤ N := by
          by_contra hcon
          rw [hpc'] at h0
          omega
        have hbound : 4096 * (pc - 1) + 1 ≤ N ∧ N ≤ 4096 * pc := by
          constructor <;> omega
        have hk1 : 1 ≤ k := by omega
        have hk2 : k ≤ 4096 := by omega
        have hlastlen : ((buildPL us).pages (pc - 1)).length = 16 * k := by
          rw [hpages _, flatten_length_16 _ (plChunk_all16 us h16u _),
            plChunk_length]
          simp only [PL_PAGE_SIZE]
          omega
        have hdiv : ((buildPL us).pages (pc - 1)).length / 16 = k := by
          rw [hlastlen]
          omega
        unfold pl_append
        rw [if_neg h0]
        by_cases hk : k < 4096
        · -- append to the last page
          rw [if_pos (by rw [hdiv]; simpa only [PL_PAGE_SIZE] using hk)]
          refine ⟨?_, fun p => ?_⟩
          · simp only [List.length_append, List.length_cons, List.length_nil,
              PL_PAGE_SIZE]
            omega
          · dsimp only
            rw [← hpcdef]
            by_cases hp : p = pc - 1
            · subst hp
              rw [if_pos rfl, hpages]
              unfold plChunk
              rw [List.drop_append_eq_append_drop,
                Nat.sub_eq_zero_of_le
                  (show PL_PAGE_SIZE * (pc - 1) ≤ us.length from by
                    simp only [PL_PAGE_SIZE]
                    omega),
                List.drop_zero, List.take_append_eq_append_take]
              have hdl : (us.drop (PL_PAGE_SIZE * (pc - 1))).length = k := by
                simp only [List.length_drop, PL_PAGE_SIZE]
                omega
              rw [hdl, List.take_of_length_le
                (show ([u] : List (List Nat)).length ≤ PL_PAGE_SIZE - k from by
                  simp only [List.length_cons, List.length_nil, PL_PAGE_SIZE]
                  omega)]
              simp
            · rw [if_neg hp, hpages p]
              rcases Nat.lt_or_ge p (pc - 1) with hplt | hpge
              · rw [plChunk_append_lt _ _ _
                  (by simp only [PL_PAGE_SIZE]; omega)]
              · rw [plChunk_nil_of_le _ _
                    (by simp only [PL_PAGE_SIZE]; omega),
                  plChunk_nil_of_le _ _
                    (by simp only [List.length_append, List.length_cons,
                          List.length_nil, PL_PAGE_SIZE]
                        omega)]
        · -- last page is full: open a new page
          rw [if_neg (by rw [hdiv]; simp only [PL_PAGE_SIZE]; omega)]
          have hNeq : N = 4096 * pc := by omega
          refine ⟨?_, fun p => ?_⟩
          · simp only [List.length_append, List.length_cons, List.length_nil,
              PL_PAGE_SIZE]
            omega
          · dsimp only
            rw [← hpcdef]
            by_cases hp : p = pc
            · subst hp
              rw [if_pos rfl]
              unfold plChunk
              rw [List.drop_append_eq_append_drop,
                List.drop_eq_nil_of_le
                  (show us.length ≤ PL_PAGE_SIZE * pc from by
                    simp only [PL_PAGE_SIZE]
                    omega),
                Nat.sub_eq_zero_of_le
                  (show PL_PAGE_SIZE * pc ≤ us.length from by
                    simp only [PL_PAGE_SIZE]
                    omega)]
              simp [PL_PAGE_SIZE]
            · rw [if_neg hp, hpages p]
              rcases Nat.lt_or_ge p pc with hplt | hpge
              · rw [plChunk_append_lt _ _ _
                  (by simp only [PL_PAGE_SIZE]; omega)]
              · rw [plChunk_nil_of_le _ _
                    (by simp only [PL_PAGE_SIZE]; omega),
                  plChunk_nil_of_le _ _
                    (by simp only [List.length_append, List.length_cons,
                          List.length_nil, PL_PAGE_SIZE]
                        omega)]

theorem flatten_map_flatten {α : Type} (l : List (List (List α))) :
    (l.map List.flatten).flatten = l.flatten.flatten := by
  induction l with
  | nil => rfl
  | cons x xs ih =>
      simp only [List.map_cons, List.flatten_cons, List.flatten_append, ih]

theorem plChunks_flatten (pc : Nat) :
    ∀ us : List (List Nat), us.length ≤ PL_PAGE_SIZE * pc →
      ((List.range pc).map (plChunk us)).flatten = us := by
  induction pc with
  | zero =>
      intro us h
      simp only [PL_PAGE_SIZE, Nat.mul_zero, Nat.le_zero] at h
      rw [List.length_eq_zero.mp h]
      rfl
  | succ pc ih =>
      intro us h
      rw [List.range_succ_eq_map]
      simp only [List.map_cons, List.map_map, List.flatten_cons]
      have h0 : plChunk us 0 = us.take PL_PAGE_SIZE := by
        simp [plChunk]
      have hcomp : ((List.range pc).map (plChunk us ∘ (· + 1))) =
          (List.range pc).map (plChunk (us.drop PL_PAGE_SIZE)) := by
        refine List.map_congr_left fun p _ => ?_
        show plChunk us (p + 1) = plChunk (us.drop PL_PAGE_SIZE) p
        unfold plChunk
        rw [List.drop_drop]
        congr 2
        ring
      rw [h0, hcomp, ih (us.drop PL_PAGE_SIZE)
        (by simp only [List.length_drop, PL_PAGE_SIZE] at h ⊢; omega)]
      exact List.take_append_drop _ us

/-- C3: after appending `N ≥ 1` conformer ALIDs (16-byte blobs) to one
CID's posting list via `_pl_append`, the stored page count is
`⌈N / 4096⌉`, every page blob's length is a multiple of 16, and the
concatenation of pages `0 .. page_count - 1` is exactly the `N` appended
blobs in append order, hence `16 * N` bytes. -/
theorem C3_posting_list_pages (us : List (List Nat)) (hne : us ≠ [])
    (h16 : ∀ u ∈ us, u.length = 16) :
    (buildPL us).page_count = (us.length + 4095) / 4096 ∧
    (∀ p, p < (buildPL us).page_count → 16 ∣ ((buildPL us).pages p).length) ∧
    ((List.range (buildPL us).page_count).map (buildPL us).pages).flatten
      = us.flatten ∧
    us.flatten.length = 16 * us.length := by
  obtain ⟨hpc, hpages⟩ := buildPL_inv us h16
  refine ⟨by simpa only [PL_PAGE_SIZE] using hpc, fun p _ => ?_, ?_,
    flatten_length_16 us h16⟩
  · rw [hpages p]
    exact ⟨(plChunk us p).length, flatten_length_16 _ (plChunk_all16 us h16 p)⟩
  · have hmc : (List.range (buildPL us).page_count).map (buildPL us).pages =
        ((List.range (buildPL us).page_count).map (plChunk us)).map
          List.flatten := by
      rw [List.map_map]
      exact List.map_congr_left fun p _ => hpages p
    rw [hmc, flatten_map_flatten, plChunks_flatten _ us
      (by simp only [PL_PAGE_SIZE] at hpc ⊢; omega)]

/-- Witness for C3 with two appended 16-byte ALIDs. -/
theorem C3_posting_list_pages_witness :
    (buildPL [List.replicate 16 1, List.replicate 16 2]).page_count =
      (([List.replicate 16 1, List.replicate 16 2] :
          List (List Nat)).length + 4095) / 4096 ∧
    (∀ p, p < (buildPL [List.replicate 16 1, List.replicate 16 2]).page_count →
      16 ∣ ((buildPL [List.replicate 16 1, List.replicate 16 2]).pages p).length) ∧
    ((List.range (buildPL [List.replicate 16 1,
        List.replicate 16 2]).page_count).map
      (buildPL [List.replicate 16 1, List.replicate 16 2]).pages).flatten =
      ([List.replicate 16 1, List.replicate 16 2] :
        List (List Nat)).flatten ∧
    (([List.replicate 16 1, List.replicate 16 2] :
        List (List Nat)).flatten).length =
      16 * ([List.replicate 16 1, List.replicate 16 2] :
        List (List Nat)).length :=
  C3_posting_list_pages [List.replicate 16 1, List.replicate 16 2]
    (by decide) (by decide)

/-! ## `SDFIndex.iter_conformers_by_cid`

The reader walks pages `0 .. page_count - 1`, slices each blob into
16-byte entries (`for i in range(0, len(blob), 16)`, breaking on a short
tail), forms the record key `b"F" + ubytes` (`70` is the byte `F`), skips
entries whose record is absent and yields the rest.  `recs` is the
records table restricted to decoded locator values (a value that
`from_bytes` rejects would raise in Python; the builder only stores
values produced by `to_bytes`). -/

def iterPage (recs : List Nat → Option RecordLocator) (blob : List Nat) :
    List (List Nat × RecordLocator) :=
  if h : 16 ≤ blob.length then
    match recs (70 :: blob.take 16) with
    | none => iterPage recs (blob.drop 16)
    | some loc => (blob.take 16, loc) :: iterPage recs (blob.drop 16)
  else []
termination_by blob.length
decreasing_by
  all_goals simp only [List.length_drop]; omega

/-- `SDFIndex.iter_conformers_by_cid` over one CID's posting-list state
(`if not blob: continue` is subsumed: an empty blob yields nothing). -/
def iter_conformers_by_cid (recs : List Nat → Option RecordLocator)
    (st : PLState) : List (List Nat × RecordLocator) :=
  ((List.range st.page_count).map
    (fun page_no => iterPage recs (st.pages page_no))).flatten

theorem iterPage_nil (recs : List Nat → Option RecordLocator) :
    iterPage recs [] = [] := by
  rw [iterPage]
  rfl

theorem iterPage_cons (recs : List Nat → Option RecordLocator)
    (u rest : List Nat) (hu : u.length = 16) :
    iterPage recs (u ++ rest) =
      match recs (70 :: u) with
      | none => iterPage recs rest
      | some loc => (u, loc) :: iterPage recs rest := by
  rw [iterPage]
  have hlen : 16 ≤ (u ++ rest).length := by
    simp [hu]
  rw [dif_pos hlen, List.take_left' hu, List.drop_left' hu]

theorem iterPage_flatten (recs : List Nat → Option RecordLocator)
    (seg : List (List Nat)) (h16 : ∀ u ∈ seg, u.length = 16) :
    iterPage recs seg.flatten =
      seg.filterMap
        (fun u => (recs (70 :: u)).map (fun loc => (u, loc))) := by
  induction seg with
  | nil => simpa using iterPage_nil recs
  | cons u rest ih =>
      rw [List.flatten_cons,
        iterPage_cons recs u rest.flatten (h16 u (by simp)),
        ih (fun v hv => h16 v (by simp [hv]))]
      cases hr : recs (70 :: u) <;> simp [List.filterMap_cons, hr]

theorem filterMap_map_flatten {α β : Type} (f : α → Option β)
    (L : List (List α)) :
    (L.map (List.filterMap f)).flatten = L.flatten.filterMap f := by
  induction L with
  | nil => rfl
  | cons x xs ih =>
      simp only [List.map_cons, List.flatten_cons, List.filterMap_append, ih]

/-- C6: on the posting list built by appending 16-byte ALIDs `us` in
order, `iter_conformers_by_cid` yields exactly the hits of the appended
ALIDs whose conformer record (key `b"F" + alid`) exists, in append
order. -/
theorem C6_iter_conformers_append_order (us : List (List Nat))
    (h16 : ∀ u ∈ us, u.length = 16)
    (recs : List Nat → Option RecordLocator) :
    iter_conformers_by_cid recs (buildPL us) =
      us.filterMap
        (fun u => (recs (70 :: u)).map (fun loc => (u, loc))) := by
  obtain ⟨hpc, hpages⟩ := buildPL_inv us h16
  unfold iter_conformers_by_cid
  have hmc : (List.range (buildPL us).page_count).map
        (fun page_no => iterPage recs ((buildPL us).pages page_no)) =
      ((List.range (buildPL us).page_count).map (plChunk us)).map
        (fun seg => seg.filterMap
          (fun u => (recs (70 :: u)).map (fun loc => (u, loc)))) := by
    rw [List.map_map]
    refine List.map_congr_left fun p _ => ?_
    show iterPage recs ((buildPL us).pages p) = _
    rw [hpages p, iterPage_flatten recs _ (plChunk_all16 us h16 p)]
    rfl
  rw [hmc, filterMap_map_flatten, plChunks_flatten _ us
    (by simp only [PL_PAGE_SIZE] at hpc ⊢; omega)]

/-- Witness for C6: two appended ALIDs of which only the first has a
conformer record; the iterator yields exactly that first hit. -/
theorem C6_iter_conformers_append_order_witness :
    iter_conformers_by_cid
        (fun k => if k = 70 :: List.replicate 16 1
                  then some ⟨1, 0, 5, true, none⟩ else none)
        (buildPL [List.replicate 16 1, List.replicate 16 2]) =
      ([List.replicate 16 1, List.replicate 16 2] :
          List (List Nat)).filterMap
        (fun u =>
          ((fun k => if k = 70 :: List.replicate 16 1
                     then some (⟨1, 0, 5, true, none⟩ : RecordLocator)
                     else none) (70 :: u)).map (fun loc => (u, loc))) :=
  C6_iter_conformers_append_order [List.replicate 16 1, List.replicate 16 2]
    (by decide) _

/-! ## The streaming SDF record parser (`_index_one_file`)

The per-file scan loop of `SDFIndexBuilder._index_one_file`, transcribed
over the list of lines that successive `f.readline()` calls return (each
line carries its terminator bytes; the last may not).  Byte-level helpers
mirror Python `bytes` methods.  The per-record writes of the source are
emitted as `ParsedRec` values in `out` and applied to the store by the
builder embedding below, which is the same order of effects. -/

/-- The six ASCII whitespace bytes stripped by `bytes.strip()`. -/
def isSpaceByte (b : Nat) : Bool :=
  b == 32 || b == 9 || b == 10 || b == 13 || b == 11 || b == 12

/-- `bytes.lstrip()`. -/
def lstripB (l : List Nat) : List Nat := l.dropWhile isSpaceByte

/-- `bytes.rstrip()`. -/
def rstripB (l : List Nat) : List Nat :=
  (l.reverse.dropWhile isSpaceByte).reverse

/-- `bytes.strip()`. -/
def stripB (l : List Nat) : List Nat := rstripB (lstripB l)

/-- `line.rstrip(b"\r\n")`. -/
def rstripCRLF (l : List Nat) : List Nat :=
  (l.reverse.dropWhile (fun b => b == 13 || b == 10)).reverse

/-- `bytes.isdigit()`: non-empty and all ASCII digits; `_is_int_ascii`
from `utils_module.py` is exactly this. -/
def isIntAscii (l : List Nat) : Bool :=
  !l.isEmpty && l.all (fun b => 48 ≤ b && b ≤ 57)

/-- `int(v.decode("ascii"))` on a pure-digit byte string. -/
def natOfDigits (l : List Nat) : Nat :=
  l.foldl (fun a b => 10 * a + (b - 48)) 0

/-- `re.search(rb"> <([^>]+)>", line)`: the first position where `"> <"`
is followed by at least one non-`>` byte and then a `>`; the capture is
those bytes (`62 = >`, `32 = space`, `60 = <`). -/
def fieldCapture : List Nat → Option (List Nat)
  | [] => none
  | b :: t =>
    if (b :: t).take 3 = [62, 32, 60] ∧
        ¬ ((b :: t).drop 3).takeWhile (fun x => x != 62) = [] ∧
        ((b :: t).drop 3).takeWhile (fun x => x != 62) ≠ (b :: t).drop 3 then
      some (((b :: t).drop 3).takeWhile (fun x => x != 62))
    else
      fieldCapture t

/-- `_norm_field_name`: `strip().upper()` (ASCII case map, which is what
the all-ASCII candidate sets can match). -/
def upperB (b : Nat) : Nat := if 97 ≤ b ∧ b ≤ 122 then b - 32 else b

def normFieldName (l : List Nat) : List Nat := (stripB l).map upperB

/-- ASCII bytes of a literal. -/
def sBytes (s : String) : List Nat := s.data.map Char.toNat

/-- `CID_FIELD_CANDIDATES`. -/
def CID_FIELD_CANDIDATES : List (List Nat) :=
  [sBytes "CID", sBytes "PUBCHEM_COMPOUND_CID", sBytes "PUBCHEM_CID",
   sBytes "COMPOUND_CID"]

/-- `CONFORMER_ID_FIELD_CANDIDATES`. -/
def CONFORMER_ID_FIELD_CANDIDATES : List (List Nat) :=
  [sBytes "CONFORMER_ID", sBytes "CONFID", sBytes "PUBCHEM_CONFORMER_ID",
   sBytes "CONFORMERID"]

/-- `PARENT_CID_FIELD_CANDIDATES`. -/
def PARENT_CID_FIELD_CANDIDATES : List (List Nat) :=
  [sBytes "CID", sBytes "PUBCHEM_COMPOUND_CID", sBytes "PUBCHEM_CID",
   sBytes "COMPOUND_CID", sBytes "PARENT_CID"]

/-- The builder's (tunable) normalized candidate sets: `cid_fields`,
`confid_fields`, `parent_cid_fields`. -/
structure FieldCfg where
  cid_fields : List (List Nat)
  confid_fields : List (List Nat)
  parent_cid_fields : List (List Nat)

/-- The default configuration of `SDFIndexBuilder.__init__`. -/
def defaultCfg : FieldCfg :=
  ⟨CID_FIELD_CANDIDATES.map normFieldName,
   CONFORMER_ID_FIELD_CANDIDATES.map normFieldName,
   PARENT_CID_FIELD_CANDIDATES.map normFieldName⟩

/-- One record as yielded by the scan loop: byte range, index, extracted
identifiers; `title` additionally records the record's title line
(`rstrip(b"\r\n")` of its first line), which the specification refers
to. -/
structure ParsedRec where
  rec_start : Nat
  rec_end : Nat
  rec_no : Nat
  cid_val : Option Nat
  conf_id_val : Option (List Nat)
  parent_cid_val : Option Nat
  title : Option (List Nat)
deriving DecidableEq, Repr

/-- The loop state of `_index_one_file`: file position, record state and
extracted fields, plus the records emitted so far. -/
structure ParseState where
  pos : Nat
  rec_start : Nat
  rec_no : Nat
  title_line : Option (List Nat)
  in_prop : Bool
  cur_field : Option (List Nat)
  cur_val_lines : List (List Nat)
  cid_val : Option Nat
  conf_id_val : Option (List Nat)
  parent_cid_val : Option Nat
  out : List ParsedRec
deriving Repr

def initState : ParseState :=
  ⟨0, 0, 0, none, false, none, [], none, none, none, []⟩

/-- `join as SDF property value: take first non-empty line`. -/
def firstNonEmptyStripped : List (List Nat) → Option (List Nat)
  | [] => none
  | line :: rest =>
    if (stripB line).isEmpty then firstNonEmptyStripped rest
    else some (stripB line)

/-- `finalize_field`: close the open property, retaining the first match
of each candidate category (each update is guarded by the slot still
being `None`); always clears `cur_field` and `cur_val_lines`. -/
def finalize_field (cfg : FieldCfg) (st : ParseState) : ParseState :=
  match st.cur_field with
  | none => st
  | some f =>
    let stv :=
      match firstNonEmptyStripped st.cur_val_lines with
      | none => st
      | some v =>
        let fn := normFieldName f
        let st1 :=
          if fn ∈ cfg.cid_fields ∧ st.cid_val = none ∧ isIntAscii v then
            { st with cid_val := some (natOfDigits v) }
          else st
        let st2 :=
          if fn ∈ cfg.parent_cid_fields ∧ st1.parent_cid_val = none ∧
              isIntAscii v then
            { st1 with parent_cid_val := some (natOfDigits v) }
          else st1
        if fn ∈ cfg.confid_fields ∧ st2.conf_id_val = none then
          { st2 with conf_id_val := some v }
        else st2
    { stv with cur_field := none, cur_val_lines := [] }

/-- `line.startswith(b"> <") and line.rstrip().endswith(b">")`. -/
def isPropHeader (line : List Nat) : Bool :=
  line.take 3 == [62, 32, 60] && (rstripB line).getLast? == some 62

/-- `b"$$$$"`. -/
def bDollar : List Nat := [36, 36, 36, 36]

/-- Title handling for the first line of a record: record the title, and
for compound-kind files parse a pure-digit title as the CID. -/
def stepTitle (kind : SDFKind) (st : ParseState) (line : List Nat) :
    ParseState :=
  if st.title_line = none then
    let t := rstripCRLF line
    if kind = SDFKind.compound ∧ isIntAscii (stripB t) then
      { st with title_line := some t,
                cid_val := some (natOfDigits (stripB t)) }
    else
      { st with title_line := some t }
  else st

/-- The `$$$$` terminator check at the end of the loop body: emit the
record and reset the per-record state, or just advance the position. -/
def stepTerm (cfg : FieldCfg) (st : ParseState) (line : List Nat)
    (pos' : Nat) : ParseState :=
  if stripB line = bDollar then
    let stf := finalize_field cfg st
    { pos := pos', rec_start := pos', rec_no := stf.rec_no + 1,
      title_line := none, in_prop := false, cur_field := none,
      cur_val_lines := [], cid_val := none, conf_id_val := none,
      parent_cid_val := none,
      out := stf.out ++
        [⟨stf.rec_start, pos', stf.rec_no, stf.cid_val, stf.conf_id_val,
          stf.parent_cid_val, stf.title_line⟩] }
  else
    { st with pos := pos' }

/-- The non-header part of the loop body: property-value collection
(a blank line closes the property) and then the terminator check. -/
def stepNoHeader (cfg : FieldCfg) (st : ParseState) (line : List Nat)
    (pos' : Nat) : ParseState :=
  stepTerm cfg
    (if st.in_prop then
      if (stripB line).isEmpty then
        { finalize_field cfg st with in_prop := false }
      else
        { st with cur_val_lines := st.cur_val_lines ++ [line] }
    else st) line pos'

/-- One loop iteration of `_index_one_file` on one line. -/
def step (kind : SDFKind) (cfg : FieldCfg) (st : ParseState)
    (line : List Nat) : ParseState :=
  let st1 := stepTitle kind st line
  if isPropHeader line then
    let st2 := finalize_field cfg st1
    match fieldCapture line with
    | some cap =>
      { st2 with cur_field := some cap, cur_val_lines := [],
                 in_prop := true, pos := st.pos + line.length }
    | none =>
      { st2 with cur_field := none, in_prop := false,
                 pos := st.pos + line.length }
  else
    stepNoHeader cfg st1 line (st.pos + line.length)

/-- The whole scan of one file: fold the loop over its lines.  A trailing
partial record accumulates in the state but is never emitted. -/
def parseFile (kind : SDFKind) (cfg : FieldCfg)
    (lines : List (List Nat)) : ParseState :=
  lines.foldl (step kind cfg) initState

/-! ### Parser lemmas: byte helpers -/

theorem rstripB_cons_nonspace (a : Nat) (l : List Nat)
    (ha : isSpaceByte a = false) : rstripB (a :: l) = a :: rstripB l := by
  unfold rstripB
  rw [List.reverse_cons, List.dropWhile_append]
  by_cases h : (l.reverse.dropWhile isSpaceByte).isEmpty
  · rw [if_pos h, List.isEmpty_iff.mp h]
    simp [List.dropWhile_cons, ha]
  · rw [if_neg h]
    simp

theorem stripB_of_header_front (line : List Nat)
    (h : line.take 3 = [62, 32, 60]) :
    ∃ rest, stripB line = 62 :: rest := by
  match line with
  | [] => simp at h
  | a :: t =>
      have ha : a = 62 := by
        have h0 := congrArg List.head? h
        simpa using h0
      subst ha
      unfold stripB lstripB
      rw [List.dropWhile_cons]
      norm_num [isSpaceByte]
      rw [rstripB_cons_nonspace 62 t (by norm_num [isSpaceByte])]
      exact ⟨rstripB t, rfl⟩

theorem header_strip_ne_dollar (line : List Nat)
    (h : line.take 3 = [62, 32, 60]) : stripB line ≠ bDollar := by
  obtain ⟨rest, hr⟩ := stripB_of_header_front line h
  rw [hr]
  intro hcon
  have := (List.cons.injEq _ _ _ _).mp hcon |>.1
  omega

theorem isPropHeader_take (line : List Nat) (h : isPropHeader line = true) :
    line.take 3 = [62, 32, 60] := by
  unfold isPropHeader at h
  obtain ⟨h1, _⟩ := Bool.and_eq_true_iff.mp h
  exact beq_iff_eq.mp h1

/-! ### Parser lemmas: `finalize_field` -/

theorem finalize_out (cfg : FieldCfg) (st : ParseState) :
    (finalize_field cfg st).out = st.out := by
  unfold finalize_field
  cases st.cur_field with
  | none => rfl
  | some f =>
      cases firstNonEmptyStripped st.cur_val_lines with
      | none => rfl
      | some v =>
          dsimp only
          split <;> split <;> split <;> rfl

theorem finalize_title (cfg : FieldCfg) (st : ParseState) :
    (finalize_field cfg st).title_line = st.title_line := by
  unfold finalize_field
  cases st.cur_field with
  | none => rfl
  | some f =>
      cases firstNonEmptyStripped st.cur_val_lines with
      | none => rfl
      | some v =>
          dsimp only
          split <;> split <;> split <;> rfl

theorem finalize_rec_start (cfg : FieldCfg) (st : ParseState) :
    (finalize_field cfg st).rec_start = st.rec_start := by
  unfold finalize_field
  cases st.cur_field with
  | none => rfl
  | some f =>
      cases firstNonEmptyStripped st.cur_val_lines with
      | none => rfl
      | some v =>
          dsimp only
          split <;> split <;> split <;> rfl

theorem finalize_rec_no (cfg : FieldCfg) (st : ParseState) :
    (finalize_field cfg st).rec_no = st.rec_no := by
  unfold finalize_field
  cases st.cur_field with
  | none => rfl
  | some f =>
      cases firstNonEmptyStripped st.cur_val_lines with
      | none => rfl
      | some v =>
          dsimp only
          split <;> split <;> split <;> rfl

theorem finalize_cid_some (cfg : FieldCfg) (st : ParseState) (v : Nat)
    (h : st.cid_val = some v) : (finalize_field cfg st).cid_val = some v := by
  unfold finalize_field
  cases st.cur_field with
  | none => exact h
  | some f =>
      cases firstNonEmptyStripped st.cur_val_lines with
      | none => exact h
      | some w =>
          dsimp only
          split <;> split <;> split <;> first | exact h | simp_all

theorem finalize_parent_some (cfg : FieldCfg) (st : ParseState) (v : Nat)
    (h : st.parent_cid_val = some v) :
    (finalize_field cfg st).parent_cid_val = some v := by
  unfold finalize_field
  cases st.cur_field with
  | none => exact h
  | some f =>
      cases firstNonEmptyStripped st.cur_val_lines with
      | none => exact h
      | some w =>
          dsimp only
          split <;> split <;> split <;> first | exact h | simp_all

theorem finalize_conf_some (cfg : FieldCfg) (st : ParseState)
    (v : List Nat) (h : st.conf_id_val = some v) :
    (finalize_field cfg st).conf_id_val = some v := by
  unfold finalize_field
  cases st.cur_field with
  | none => exact h
  | some f =>
      cases firstNonEmptyStripped st.cur_val_lines with
      | none => exact h
      | some w =>
          dsimp only
          split <;> split <;> split <;> first | exact h | simp_all

/-! ### Parser lemmas: `step` and emitted records -/

theorem stepTitle_out (kind : SDFKind) (st : ParseState) (line : List Nat) :
    (stepTitle kind st line).out = st.out := by
  unfold stepTitle
  split
  · dsimp only
    split <;> rfl
  · rfl

theorem stepNoHeaderPre_out (cfg : FieldCfg) (st : ParseState)
    (line : List Nat) :
    (if st.in_prop then
      if (stripB line).isEmpty then
        { finalize_field cfg st with in_prop := false }
      else
        { st with cur_val_lines := st.cur_val_lines ++ [line] }
    else st).out = st.out := by
  split
  · split
    · show ({ finalize_field cfg st with in_prop := false }).out = st.out
      simpa using finalize_out cfg st
    · rfl
  · rfl

theorem step_out_term (kind : SDFKind) (cfg : FieldCfg) (st : ParseState)
    (line : List Nat) (h : stripB line = bDollar) :
    ∃ r, (step kind cfg st line).out = st.out ++ [r] := by
  have hh : isPropHeader line = false := by
    cases hph : isPropHeader line
    · rfl
    · exact absurd h (header_strip_ne_dollar line (isPropHeader_take line hph))
  unfold step
  rw [hh]
  simp only [Bool.false_eq_true, if_false]
  unfold stepNoHeader stepTerm
  rw [if_pos h]
  dsimp only
  rw [finalize_out, stepNoHeaderPre_out, stepTitle_out]
  exact ⟨_, rfl⟩

theorem step_out_nonterm (kind : SDFKind) (cfg : FieldCfg)
    (st : ParseState) (line : List Nat) (h : ¬ stripB line = bDollar) :
    (step kind cfg st line).out = st.out := by
  unfold step
  cases hph : isPropHeader line
  · simp only [Bool.false_eq_true, if_false]
    unfold stepNoHeader stepTerm
    rw [if_neg h]
    dsimp only
    rw [stepNoHeaderPre_out, stepTitle_out]
  · simp only [if_true]
    cases hfc : fieldCapture line <;>
      simp only [hfc] <;>
      rw [finalize_out, stepTitle_out]

/-- C9: the scan of `_index_one_file` emits exactly one record per line
whose stripped content is `$$$$`, and nothing else; lines after the last
terminator (a trailing partial record) leave the emitted records — hence
the per-record table writes, which are a fold over them — unchanged, and
EOF after a complete record just ends the fold. -/
theorem C9_one_record_per_terminator (kind : SDFKind) (cfg : FieldCfg)
    (lines extra : List (List Nat))
    (hextra : ∀ l ∈ extra, ¬ stripB l = bDollar) :
    (parseFile kind cfg lines).out.length =
      (lines.countP (fun l => stripB l = bDollar)) ∧
    (parseFile kind cfg (lines ++ extra)).out =
      (parseFile kind cfg lines).out := by
  constructor
  · induction lines using List.reverseRecOn with
    | nil => rfl
    | append_singleton ls l ih =>
        have hfold : parseFile kind cfg (ls ++ [l]) =
            step kind cfg (parseFile kind cfg ls) l := by
          unfold parseFile
          rw [List.foldl_append]
          rfl
        rw [hfold, List.countP_append]
        by_cases h : stripB l = bDollar
        · obtain ⟨r, hr⟩ := step_out_term kind cfg _ l h
          rw [hr]
          simp [ih, List.countP_cons, h]
        · rw [step_out_nonterm kind cfg _ l h]
          simp [ih, List.countP_cons, h]
  · induction extra using List.reverseRecOn with
    | nil => simp
    | append_singleton ex l ih =>
        have hex : ∀ x ∈ ex, ¬ stripB x = bDollar :=
          fun x hx => hextra x (by simp [hx])
        have hl : ¬ stripB l = bDollar := hextra l (by simp)
        have hfold : parseFile kind cfg (lines ++ (ex ++ [l])) =
            step kind cfg (parseFile kind cfg (lines ++ ex)) l := by
          unfold parseFile
          rw [← List.append_assoc, List.foldl_append]
          rfl
        rw [hfold, step_out_nonterm kind cfg _ l hl]
        exact ih hex

/-- Witness for C9: one complete record followed by a trailing partial
line; one record is emitted either way. -/
theorem C9_one_record_per_terminator_witness :
    (parseFile SDFKind.compound defaultCfg
        [[50, 50, 52, 52, 10], [36, 36, 36, 36, 10]]).out.length =
      ([[50, 50, 52, 52, 10], [36, 36, 36, 36, 10]] :
          List (List Nat)).countP (fun l => stripB l = bDollar) ∧
    (parseFile SDFKind.compound defaultCfg
        ([[50, 50, 52, 52, 10], [36, 36, 36, 36, 10]] ++ [[65, 10]])).out =
      (parseFile SDFKind.compound defaultCfg
        [[50, 50, 52, 52, 10], [36, 36, 36, 36, 10]]).out :=
  C9_one_record_per_terminator SDFKind.compound defaultCfg
    [[50, 50, 52, 52, 10], [36, 36, 36, 36, 10]] [[65, 10]] (by decide)

/-! ### C8: title-line CID and first-occurrence retention -/

/-- The state-level form of C8's title clause: whenever the current
record's title line strips to pure digits (in a compound-kind scan), the
extracted CID is that title value. -/
def TitleCid (st : ParseState) : Prop :=
  ∀ t, st.title_line = some t → isIntAscii (stripB t) = true →
    st.cid_val = some (natOfDigits (stripB t))

/-- The emitted-record form of C8's title clause. -/
def OutTitleCid (st : ParseState) : Prop :=
  ∀ r ∈ st.out, ∀ t, r.title = some t → isIntAscii (stripB t) = true →
    r.cid_val = some (natOfDigits (stripB t))

theorem TitleCid_frame {st st' : ParseState} (h : TitleCid st)
    (ht : st'.title_line = st.title_line)
    (hc : ∀ v, st.cid_val = some v → st'.cid_val = some v) :
    TitleCid st' := by
  intro t htl hd
  rw [ht] at htl
  exact hc _ (h t htl hd)

theorem TitleCid_of_none {st : ParseState} (h : st.title_line = none) :
    TitleCid st := by
  intro t htl
  rw [h] at htl
  cases htl

theorem finalize_TitleCid (cfg : FieldCfg) (st : ParseState)
    (h : TitleCid st) : TitleCid (finalize_field cfg st) :=
  TitleCid_frame h (finalize_title cfg st) (finalize_cid_some cfg st)

theorem stepTitle_TitleCid (st : ParseState) (line : List Nat)
    (h : TitleCid st) : TitleCid (stepTitle SDFKind.compound st line) := by
  unfold stepTitle
  split
  · dsimp only
    split
    · rename_i hcond
      intro t htl hd
      obtain rfl : rstripCRLF line = t := by injection htl
      rfl
    · rename_i hcond
      intro t htl hd
      obtain rfl : rstripCRLF line = t := by injection htl
      exact absurd ⟨rfl, hd⟩ hcond
  · exact h

/-- One scan step preserves both forms of the title-CID property. -/
theorem step_TitleCid (cfg : FieldCfg) (st : ParseState) (line : List Nat)
    (h1 : TitleCid st) (h2 : OutTitleCid st) :
    TitleCid (step SDFKind.compound cfg st line) ∧
    OutTitleCid (step SDFKind.compound cfg st line) := by
  have ht1 : TitleCid (stepTitle SDFKind.compound st line) :=
    stepTitle_TitleCid st line h1
  have ho1 : OutTitleCid (stepTitle SDFKind.compound st line) := by
    unfold OutTitleCid
    rw [stepTitle_out]
    exact h2
  unfold step
  cases hph : isPropHeader line
  · simp only [Bool.false_eq_true, if_false]
    unfold stepNoHeader
    have ht2 : TitleCid (if (stepTitle SDFKind.compound st line).in_prop then
        if (stripB line).isEmpty then
          { finalize_field cfg (stepTitle SDFKind.compound st line) with
              in_prop := false }
        else
          { stepTitle SDFKind.compound st line with
              cur_val_lines :=
                (stepTitle SDFKind.compound st line).cur_val_lines ++ [line] }
      else stepTitle SDFKind.compound st line) := by
      split
      · split
        · exact TitleCid_frame (finalize_TitleCid cfg _ ht1) rfl
            (fun v hv => hv)
        · exact TitleCid_frame ht1 rfl (fun v hv => hv)
      · exact ht1
    have ho2 : OutTitleCid (if (stepTitle SDFKind.compound st line).in_prop then
        if (stripB line).isEmpty then
          { finalize_field cfg (stepTitle SDFKind.compound st line) with
              in_prop := false }
        else
          { stepTitle SDFKind.compound st line with
              cur_val_lines :=
                (stepTitle SDFKind.compound st line).cur_val_lines ++ [line] }
      else stepTitle SDFKind.compound st line) := by
      unfold OutTitleCid
      rw [stepNoHeaderPre_out, stepTitle_out]
      exact h2
    unfold stepTerm
    split
    · constructor
      · exact TitleCid_of_none rfl
      · intro r hr t htl hd
        dsimp only at hr
        rw [List.mem_append] at hr
        rcases hr with hr | hr
        · exact ho2 r (by rw [finalize_out] at hr; exact hr) t htl hd
        · have hre : r = ⟨_, _, _, _, _, _, _⟩ := List.mem_singleton.mp hr
          subst hre
          dsimp only at htl ⊢
          exact finalize_TitleCid cfg _ ht2 t htl hd
    · exact ⟨TitleCid_frame ht2 rfl (fun v hv => hv), by
        unfold OutTitleCid
        show ∀ r ∈ _, _
        intro r hr
        exact ho2 r hr⟩
  · simp only [if_true]
    cases hfc : fieldCapture line <;>
      simp only [hfc] <;>
      exact ⟨TitleCid_frame (finalize_TitleCid cfg _ ht1) rfl (fun v hv => hv),
        by
          unfold OutTitleCid
          rw [show ∀ x : ParseState, x.out = x.out from fun x => rfl]
          intro r hr
          dsimp only at hr
          rw [finalize_out, stepTitle_out] at hr
          exact h2 r hr⟩

theorem parseFile_TitleCid (cfg : FieldCfg) (lines : List (List Nat)) :
    TitleCid (parseFile SDFKind.compound cfg lines) ∧
    OutTitleCid (parseFile SDFKind.compound cfg lines) := by
  induction lines using List.reverseRecOn with
  | nil =>
      exact ⟨TitleCid_of_none rfl, fun r hr => by cases hr⟩
  | append_singleton ls l ih =>
      have hfold : parseFile SDFKind.compound cfg (ls ++ [l]) =
          step SDFKind.compound cfg (parseFile SDFKind.compound cfg ls) l := by
        unfold parseFile
        rw [List.foldl_append]
        rfl
      rw [hfold]
      exact step_TitleCid cfg _ l ih.1 ih.2

/-- `stepTitle` is the identity once the record's title line was seen. -/
theorem stepTitle_id (kind : SDFKind) (st : ParseState) (line : List Nat)
    (t0 : List Nat) (h : st.title_line = some t0) :
    stepTitle kind st line = st := by
  unfold stepTitle
  rw [if_neg (by simp [h])]

/-- Once set, each of the three identifier slots survives one scan step
of a line that is not the record terminator. -/
def KeepsIds (st st' : ParseState) : Prop :=
  (∀ v, st.cid_val = some v → st'.cid_val = some v) ∧
  (∀ v, st.parent_cid_val = some v → st'.parent_cid_val = some v) ∧
  (∀ v, st.conf_id_val = some v → st'.conf_id_val = some v)

theorem finalize_KeepsIds (cfg : FieldCfg) (st : ParseState) :
    KeepsIds st (finalize_field cfg st) :=
  ⟨finalize_cid_some cfg st, finalize_parent_some cfg st,
   finalize_conf_some cfg st⟩

theorem KeepsIds_refl (st : ParseState) : KeepsIds st st :=
  ⟨fun _ h => h, fun _ h => h, fun _ h => h⟩

/-- The C8 step lemma for mid-record lines: on a non-terminator line the
slots survive in the state; on the terminator they are carried into the
emitted record. -/
theorem stepTerm_keeps (cfg : FieldCfg) (s : ParseState) (line : List Nat)
    (pos' : Nat) (h : stripB line = bDollar) :
    ∃ r, (stepTerm cfg s line pos').out = s.out ++ [r] ∧
      (∀ v, s.cid_val = some v → r.cid_val = some v) ∧
      (∀ v, s.parent_cid_val = some v → r.parent_cid_val = some v) ∧
      (∀ v, s.conf_id_val = some v → r.conf_id_val = some v) := by
  unfold stepTerm
  rw [if_pos h]
  refine ⟨⟨(finalize_field cfg s).rec_start, pos',
      (finalize_field cfg s).rec_no, (finalize_field cfg s).cid_val,
      (finalize_field cfg s).conf_id_val,
      (finalize_field cfg s).parent_cid_val,
      (finalize_field cfg s).title_line⟩, ?_, ?_, ?_, ?_⟩
  · dsimp only
    rw [finalize_out]
  · exact fun v hv => finalize_cid_some cfg s v hv
  · exact fun v hv => finalize_parent_some cfg s v hv
  · exact fun v hv => finalize_conf_some cfg s v hv

theorem step_keeps_ids (kind : SDFKind) (cfg : FieldCfg) (st : ParseState)
    (line : List Nat) (t0 : List Nat) (htitle : st.title_line = some t0) :
    (¬ stripB line = bDollar →
      KeepsIds st (step kind cfg st line)) ∧
    (stripB line = bDollar →
      ∃ r, (step kind cfg st line).out = st.out ++ [r] ∧
        (∀ v, st.cid_val = some v → r.cid_val = some v) ∧
        (∀ v, st.parent_cid_val = some v → r.parent_cid_val = some v) ∧
        (∀ v, st.conf_id_val = some v → r.conf_id_val = some v)) := by
  unfold step
  rw [stepTitle_id kind st line t0 htitle]
  have hpre : KeepsIds st
      (if st.in_prop then
        if (stripB line).isEmpty then
          { finalize_field cfg st with in_prop := false }
        else
          { st with cur_val_lines := st.cur_val_lines ++ [line] }
      else st) := by
    split
    · split
      · exact finalize_KeepsIds cfg st
      · exact KeepsIds_refl st
    · exact KeepsIds_refl st
  have hpreout : (if st.in_prop then
        if (stripB line).isEmpty then
          { finalize_field cfg st with in_prop := false }
        else
          { st with cur_val_lines := st.cur_val_lines ++ [line] }
      else st).out = st.out := stepNoHeaderPre_out cfg st line
  cases hph : isPropHeader line
  · simp only [Bool.false_eq_true, if_false]
    unfold stepNoHeader
    constructor
    · intro hnt
      unfold stepTerm
      rw [if_neg hnt]
      obtain ⟨hc, hp, hf⟩ := hpre
      obtain ⟨hc2, hp2, hf2⟩ := finalize_KeepsIds cfg
        (if st.in_prop then
          if (stripB line).isEmpty then
            { finalize_field cfg st with in_prop := false }
          else
            { st with cur_val_lines := st.cur_val_lines ++ [line] }
        else st)
      exact ⟨fun v hv => hc v hv, fun v hv => hp v hv, fun v hv => hf v hv⟩
    · intro ht
      obtain ⟨hc, hp, hf⟩ := hpre
      obtain ⟨r, hr, hrc, hrp, hrf⟩ := stepTerm_keeps cfg
        (if st.in_prop then
          if (stripB line).isEmpty then
            { finalize_field cfg st with in_prop := false }
          else
            { st with cur_val_lines := st.cur_val_lines ++ [line] }
        else st) line (st.pos + line.length) ht
      refine ⟨r, ?_, ?_, ?_, ?_⟩
      · rw [hr, hpreout]
      · exact fun v hv => hrc v (hc v hv)
      · exact fun v hv => hrp v (hp v hv)
      · exact fun v hv => hrf v (hf v hv)
  · simp only [if_true]
    constructor
    · intro hnt
      cases hfc : fieldCapture line <;>
        simp only [hfc] <;>
        exact finalize_KeepsIds cfg st
    · intro ht
      exact absurd ht (header_strip_ne_dollar line (isPropHeader_take line hph))

/-- C8: for compound-kind files, a record whose title line strips to pure
ASCII digits carries exactly that value as its CID (and the title, being
the record's first line, wins: the property-field path only fills a
still-empty slot); and for every identifier category — CID, conformer-id,
parent-CID — a set slot is never replaced by a later occurrence: it
survives every further line of the record and is carried verbatim into
the emitted record at the terminator. -/
theorem C8_title_cid_first_occurrence (cfg : FieldCfg) :
    (∀ lines r, r ∈ (parseFile SDFKind.compound cfg lines).out →
      ∀ t, r.title = some t → isIntAscii (stripB t) = true →
        r.cid_val = some (natOfDigits (stripB t))) ∧
    (∀ kind st line t0, st.title_line = some t0 →
      (¬ stripB line = bDollar → KeepsIds st (step kind cfg st line)) ∧
      (stripB line = bDollar →
        ∃ r, (step kind cfg st line).out = st.out ++ [r] ∧
          (∀ v, st.cid_val = some v → r.cid_val = some v) ∧
          (∀ v, st.parent_cid_val = some v → r.parent_cid_val = some v) ∧
          (∀ v, st.conf_id_val = some v → r.conf_id_val = some v))) :=
  ⟨fun lines r hr => (parseFile_TitleCid cfg lines).2 r hr,
   fun kind st line t0 ht => step_keeps_ids kind cfg st line t0 ht⟩

/-- Witness for C8: the one-record compound file whose title line is
`2244`; the emitted record's CID is 2244. -/
theorem C8_title_cid_first_occurrence_witness :
    (⟨0, 10, 0, some 2244, none, none, some [50, 50, 52, 52]⟩ :
        ParsedRec).cid_val =
      some (natOfDigits (stripB [50, 50, 52, 52])) :=
  (C8_title_cid_first_occurrence defaultCfg).1
    [[50, 50, 52, 52, 10], [36, 36, 36, 36, 10]]
    ⟨0, 10, 0, some 2244, none, none, some [50, 50, 52, 52]⟩
    (by decide) [50, 50, 52, 52] (by decide) (by decide)

/-! ## The builder's table writes (`_index_one_file`, steps 1–7) and C2

`str(cid)` is embedded as `natDecimal` (ASCII decimal bytes, fuel-based
so the kernel can evaluate it); the `primary_id` fed into the ALID is
the decimal string for compounds with a CID, empty otherwise. -/

/-- Little-endian decimal digit bytes of `n` (`fuel ≥ n` suffices). -/
def natDecimalAux : Nat → Nat → List Nat
  | 0, _ => []
  | fuel + 1, n => if n = 0 then [] else (n % 10 + 48) :: natDecimalAux fuel (n / 10)

/-- `str(n)` for a natural number, as ASCII bytes. -/
def natDecimal (n : Nat) : List Nat :=
  if n = 0 then [48] else (natDecimalAux n n).reverse

theorem natDecimalAux_val (fuel : Nat) :
    ∀ n, n ≤ fuel →
      (natDecimalAux fuel n).foldr (fun b acc => 10 * acc + (b - 48)) 0 = n := by
  induction fuel with
  | zero =>
      intro n hn
      interval_cases n
      rfl
  | succ fuel ih =>
      intro n hn
      unfold natDecimalAux
      by_cases h0 : n = 0
      · rw [if_pos h0, h0]
        rfl
      · rw [if_neg h0]
        simp only [List.foldr_cons]
        rw [ih (n / 10) (by omega)]
        omega

theorem natOfDigits_natDecimal (n : Nat) : natOfDigits (natDecimal n) = n := by
  unfold natDecimal
  by_cases h0 : n = 0
  · rw [if_pos h0, h0]
    rfl
  · rw [if_neg h0]
    unfold natOfDigits
    rw [List.foldl_reverse]
    exact natDecimalAux_val n n le_rfl

theorem natDecimal_injective (a b : Nat) (h : natDecimal a = natDecimal b) :
    a = b := by
  rw [← natOfDigits_natDecimal a, ← natOfDigits_natDecimal b, h]

theorem natDecimal_ne_nil (n : Nat) : natDecimal n ≠ [] := by
  unfold natDecimal
  by_cases h0 : n = 0
  · rw [if_pos h0]
    simp
  · rw [if_neg h0]
    obtain ⟨m, rfl⟩ : ∃ m, n = m + 1 := ⟨n - 1, by omega⟩
    unfold natDecimalAux
    rw [if_neg h0]
    simp

/-- `primary = str(cid_val) if cid_val is not None else ""`. -/
def primaryOfCid : Option Nat → List Nat
  | none => []
  | some c => natDecimal c

theorem primaryOfCid_natDecimal (cv : Option Nat) (c : Nat)
    (h : primaryOfCid cv = natDecimal c) : cv = some c := by
  cases cv with
  | none => exact absurd h.symm (natDecimal_ne_nil c)
  | some d => exact congrArg some (natDecimal_injective d c h)

/-- The per-record writes in the `$$$$` branch of `_index_one_file`:
derive `primary_id` and the ALID, pack and store the locator, then the
secondary entries (`cid_to_compound` for compounds with a CID,
`confid_to_conf` and the posting list for conformers).  A `struct.error`
from `to_bytes` (`none`) aborts the build. -/
def applyRecord (kind : SDFKind) (relpath : String) (file_id : Nat)
    (st : Snapshot) (r : ParsedRec) : Option Snapshot :=
  match kind with
  | SDFKind.compound =>
    let primary := primaryOfCid r.cid_val
    let alid : Alid := ⟨SDFKind.compound, relpath, r.rec_no, primary⟩
    let rec_key : Bool × Alid := (false, alid)
    let loc : RecordLocator :=
      ⟨file_id, r.rec_start, r.rec_end, false,
       r.cid_val.map (fun c => (c : Int))⟩
    match loc.to_bytes with
    | none => none
    | some b =>
      let st1 := { st with records := tput st.records rec_key b }
      match r.cid_val with
      | some c =>
        some { st1 with
          cid_to_compound := tput st1.cid_to_compound c rec_key }
      | none => some st1
  | SDFKind.conformer =>
    let primary := r.conf_id_val.getD []
    let alid : Alid := ⟨SDFKind.conformer, relpath, r.rec_no, primary⟩
    let rec_key : Bool × Alid := (true, alid)
    let eff_cid : Option Nat :=
      match r.cid_val with
      | some c => some c
      | none => r.parent_cid_val
    let loc : RecordLocator :=
      ⟨file_id, r.rec_start, r.rec_end, true,
       eff_cid.map (fun c => (c : Int))⟩
    match loc.to_bytes with
    | none => none
    | some b =>
      let st1 := { st with records := tput st.records rec_key b }
      let st2 :=
        match r.conf_id_val with
        | some s =>
          { st1 with confid_to_conf := tput st1.confid_to_conf s rec_key }
        | none => st1
      match eff_cid with
      | some c =>
        some { st2 with
          pl := fun x => if x = c then st2.pl c ++ [alid] else st2.pl x }
      | none => some st2

/-- `SDFIndex._get_or_create_file_id`. -/
def _get_or_create_file_id (st : Snapshot) (relpath : String) :
    Nat × Snapshot :=
  match st.files_rev relpath with
  | some fid => (fid, st)
  | none =>
    (st.file_id_counter + 1,
     { st with
       file_id_counter := st.file_id_counter + 1,
       files_rev := tput st.files_rev relpath (st.file_id_counter + 1),
       files := tput st.files (st.file_id_counter + 1) relpath })

/-- The per-record writes, folded over the parsed records in scan
order. -/
def applyRecords (kind : SDFKind) (relpath : String) (file_id : Nat) :
    Snapshot → List ParsedRec → Option Snapshot
  | st, [] => some st
  | st, r :: rs =>
    match applyRecord kind relpath file_id st r with
    | none => none
    | some st' => applyRecords kind relpath file_id st' rs

/-- `SDFIndexBuilder._index_one_file`: allocate the `file_id`, scan the
file, apply the per-record writes in order. -/
def _index_one_file (cfg : FieldCfg) (st : Snapshot) (relpath : String)
    (kind : SDFKind) (lines : List (List Nat)) : Option Snapshot :=
  applyRecords kind relpath (_get_or_create_file_id st relpath).1
    (_get_or_create_file_id st relpath).2
    (parseFile kind cfg lines).out

/-- `SDFIndexBuilder.build` over the classified file list (relative path,
kind from `_determine_kind`, line contents); meta/statistics writes are
omitted (no claim concerns them). -/
def build (cfg : FieldCfg) :
    Snapshot → List (String × SDFKind × List (List Nat)) → Option Snapshot
  | st, [] => some st
  | st, (rp, kind, lines) :: fs =>
    match _index_one_file cfg st rp kind lines with
    | none => none
    | some st' => build cfg st' fs

/-- The store created empty when the builder first opens the index. -/
def emptySnapshot : Snapshot :=
  ⟨0, fun _ => none, fun _ => none, fun _ => none, fun _ => none,
   fun _ => none, fun _ => []⟩

/-- The ranges implied by a successful `to_bytes` (`struct.pack` accepted
every field). -/
theorem to_bytes_bounds {L : RecordLocator} {b : List Nat}
    (h : L.to_bytes = some b) :
    L.file_id < 2 ^ 32 ∧ L.start < 2 ^ 64 ∧ L.stop < 2 ^ 64 ∧
      -(2 ^ 63) ≤ RecordLocator.cidI64 L.cid ∧
      RecordLocator.cidI64 L.cid < 2 ^ 63 := by
  unfold RecordLocator.to_bytes at h
  dsimp only at h
  by_cases hc : L.file_id < 2 ^ 32 ∧ L.start < 2 ^ 64 ∧ L.stop < 2 ^ 64 ∧
      -(2 ^ 63) ≤ RecordLocator.cidI64 L.cid ∧
      RecordLocator.cidI64 L.cid < 2 ^ 63
  · exact hc
  · rw [if_neg hc] at h
    cases h

/-- Every value the builder stores in `records` decodes back to the
locator it encoded (its `cid` is a natural number or absent). -/
theorem from_bytes_of_to_bytes_nat {L : RecordLocator} {b : List Nat}
    (h : L.to_bytes = some b)
    (hcid : L.cid = none ∨ ∃ c : Nat, L.cid = some (c : Int)) :
    RecordLocator.from_bytes b = some L := by
  obtain ⟨h1, h2, h3, _, h5⟩ := to_bytes_bounds h
  have h4' : L.cid = none ∨ ∃ c : Int, L.cid = some c ∧ 0 ≤ c ∧ c < 2 ^ 63 := by
    rcases hcid with hn | ⟨c, hc⟩
    · exact Or.inl hn
    · refine Or.inr ⟨(c : Int), hc, by positivity, ?_⟩
      have hcc : RecordLocator.cidI64 L.cid = (c : Int) := by
        rw [hc]
        rfl
      rw [hcc] at h5
      exact h5
  obtain ⟨bs, hbs, hfb⟩ := RecordLocator.from_bytes_to_bytes L h1 h2 h3 h4'
  rw [h] at hbs
  injection hbs with hbs
  rw [← hbs] at hfb
  exact hfb

/-- The C2 invariant over the two tables `get_compound_by_cid` consults:
every `cid_to_compound` value is a `C`-prefixed key whose ALID carries
the decimal of its CID as `primary_id`, and every `C`-prefixed `records`
value decodes to a compound locator whose `cid` matches the key's
`primary_id`. -/
def C2Inv (st : Snapshot) : Prop :=
  (∀ c rk, st.cid_to_compound c = some rk →
    rk.1 = false ∧ rk.2.primary_id = natDecimal c) ∧
  (∀ a b, st.records (false, a) = some b →
    ∃ cv : Option Nat, a.primary_id = primaryOfCid cv ∧
      ∃ loc, RecordLocator.from_bytes b = some loc ∧
        loc.is_conformer = false ∧
        loc.cid = cv.map (fun c => (c : Int)))

theorem applyRecord_inv (kind : SDFKind) (rp : String) (fid : Nat)
    (st : Snapshot) (r : ParsedRec) (st' : Snapshot)
    (h : applyRecord kind rp fid st r = some st') (hinv : C2Inv st) :
    C2Inv st' := by
  cases kind with
  | compound =>
      unfold applyRecord at h
      dsimp only at h
      split at h
      · cases h
      · rename_i b htb
        split at h
        · rename_i c hcv
          injection h with h
          subst h
          constructor
          · intro c' rk hrk
            unfold tput at hrk
            dsimp only at hrk
            split at hrk
            · rename_i hceq
              injection hrk with hrk
              subst hrk
              subst hceq
              refine ⟨rfl, ?_⟩
              dsimp only
              rw [hcv]
              rfl
            · exact hinv.1 c' rk hrk
          · intro a b' hab
            unfold tput at hab
            dsimp only at hab
            split at hab
            · rename_i heqk
              injection hab with hab
              subst hab
              have ha : a = ⟨SDFKind.compound, rp, r.rec_no,
                  primaryOfCid r.cid_val⟩ := by
                have := (Prod.mk.injEq _ _ _ _).mp heqk
                exact this.2
              subst ha
              refine ⟨r.cid_val, rfl, ?_⟩
              refine ⟨_, from_bytes_of_to_bytes_nat htb ?_, rfl, rfl⟩
              cases r.cid_val with
              | none => exact Or.inl rfl
              | some c0 => exact Or.inr ⟨c0, rfl⟩
            · exact hinv.2 a b' hab
        · rename_i hcv
          injection h with h
          subst h
          constructor
          · exact fun c' rk hrk => hinv.1 c' rk hrk
          · intro a b' hab
            unfold tput at hab
            dsimp only at hab
            split at hab
            · rename_i heqk
              injection hab with hab
              subst hab
              have ha : a = ⟨SDFKind.compound, rp, r.rec_no,
                  primaryOfCid r.cid_val⟩ := by
                have := (Prod.mk.injEq _ _ _ _).mp heqk
                exact this.2
              subst ha
              refine ⟨r.cid_val, rfl, ?_⟩
              refine ⟨_, from_bytes_of_to_bytes_nat htb ?_, rfl, rfl⟩
              cases r.cid_val with
              | none => exact Or.inl rfl
              | some c0 => exact Or.inr ⟨c0, rfl⟩
            · exact hinv.2 a b' hab
  | conformer =>
      unfold applyRecord at h
      dsimp only at h
      split at h
      · cases h
      · rename_i b htb
        have hrec : ∀ a b', (tput st.records
            (true, ⟨SDFKind.conformer, rp, r.rec_no, r.conf_id_val.getD []⟩)
            b) (false, a) = some b' → st.records (false, a) = some b' := by
          intro a b' hab
          unfold tput at hab
          dsimp only at hab
          rw [if_neg (by simp)] at hab
          exact hab
        split at h <;>
          [skip; skip] <;>
          split at h <;>
          · injection h with h
            subst h
            exact ⟨fun c' rk hrk => hinv.1 c' rk hrk,
              fun a b' hab => hinv.2 a b' (hrec a b' hab)⟩

theorem applyRecords_inv (kind : SDFKind) (rp : String) (fid : Nat) :
    ∀ (rs : List ParsedRec) (st st' : Snapshot),
      applyRecords kind rp fid st rs = some st' → C2Inv st → C2Inv st' := by
  intro rs
  induction rs with
  | nil =>
      intro st st' h hinv
      injection h with h
      subst h
      exact hinv
  | cons r rs ih =>
      intro st st' h hinv
      unfold applyRecords at h
      split at h
      · cases h
      · rename_i st1 h1
        exact ih st1 st' h (applyRecord_inv kind rp fid st r st1 h1 hinv)

theorem get_or_create_inv (st : Snapshot) (rp : String) (hinv : C2Inv st) :
    C2Inv (_get_or_create_file_id st rp).2 := by
  unfold _get_or_create_file_id
  split
  · exact hinv
  · exact ⟨fun c rk h => hinv.1 c rk h, fun a b h => hinv.2 a b h⟩

theorem index_one_file_inv (cfg : FieldCfg) (st : Snapshot) (rp : String)
    (kind : SDFKind) (lines : List (List Nat)) (st' : Snapshot)
    (h : _index_one_file cfg st rp kind lines = some st')
    (hinv : C2Inv st) : C2Inv st' := by
  unfold _index_one_file at h
  exact applyRecords_inv kind rp _ _ _ _ h (get_or_create_inv st rp hinv)

theorem build_inv (cfg : FieldCfg) :
    ∀ (files : List (String × SDFKind × List (List Nat)))
      (st st' : Snapshot),
      build cfg st files = some st' → C2Inv st → C2Inv st' := by
  intro files
  induction files with
  | nil =>
      intro st st' h hinv
      injection h with h
      subst h
      exact hinv
  | cons f fs ih =>
      intro st st' h hinv
      unfold build at h
      split at h
      · cases h
      · rename_i st1 h1
        exact ih st1 st' h
          (index_one_file_inv cfg st f.1 f.2.1 f.2.2 st1 h1 hinv)

theorem emptySnapshot_inv : C2Inv emptySnapshot := by
  constructor
  · intro c rk h
    exact Option.noConfusion h
  · intro a b h
    exact Option.noConfusion h

/-- C2: on any index produced by `build`, a hit from
`get_compound_by_cid c` has a compound (non-conformer) locator whose
`cid` equals `c` or is absent. -/
theorem C2_get_compound_hit (cfg : FieldCfg)
    (files : List (String × SDFKind × List (List Nat))) (st : Snapshot)
    (hbuild : build cfg emptySnapshot files = some st)
    (c : Nat) (hit : IndexHit)
    (hget : SDFIndex.get_compound_by_cid st c = some hit) :
    hit.locator.is_conformer = false ∧
    (hit.locator.cid = some (c : Int) ∨ hit.locator.cid = none) := by
  have hinv : C2Inv st := build_inv cfg files emptySnapshot st hbuild
    emptySnapshot_inv
  unfold SDFIndex.get_compound_by_cid at hget
  split at hget
  · cases hget
  · rename_i rk hrk
    split at hget
    · cases hget
    · rename_i b hb
      split at hget
      · cases hget
      · rename_i loc hloc
        injection hget with hget
        subst hget
        obtain ⟨hk1, hk2⟩ := hinv.1 c rk hrk
        obtain ⟨b1, a⟩ := rk
        subst hk1
        obtain ⟨cv, hcv, loc', hloc', hconf, hcid⟩ := hinv.2 a b hb
        rw [hloc'] at hloc
        injection hloc with hloc
        subst hloc
        have hcvc : cv = some c :=
          primaryOfCid_natDecimal cv c (hcv ▸ hk2)
        subst hcvc
        exact ⟨hconf, Or.inl (by simpa using hcid)⟩

/-- A one-file corpus for exercising C2: one compound record with title
`2244`. -/
def c2files : List (String × SDFKind × List (List Nat)) :=
  [("a.sdf", SDFKind.compound, [[50, 50, 52, 52, 10], [36, 36, 36, 36, 10]])]

/-- The hit `get_compound_by_cid 2244` returns on that index. -/
def c2hit : IndexHit :=
  ⟨⟨SDFKind.compound, "a.sdf", 0, natDecimal 2244⟩,
   ⟨1, 0, 10, false, some (2244 : Int)⟩⟩

/-- Witness for C2 on the concrete one-compound corpus. -/
theorem C2_get_compound_hit_witness :
    c2hit.locator.is_conformer = false ∧
    (c2hit.locator.cid = some ((2244 : Nat) : Int) ∨
      c2hit.locator.cid = none) := by
  cases hb : build defaultCfg emptySnapshot c2files with
  | none =>
      have hs : (build defaultCfg emptySnapshot c2files).isSome = true := by
        decide
      rw [hb] at hs
      simp at hs
  | some st =>
      have hoget : (build defaultCfg emptySnapshot c2files).map
          (fun s => SDFIndex.get_compound_by_cid s 2244) =
            some (some c2hit) := by decide
      rw [hb] at hoget
      simp only [Option.map_some'] at hoget
      injection hoget with hoget
      exact C2_get_compound_hit defaultCfg c2files st hb 2244 c2hit hoget

end BioPub
